import Mathlib

/-!
Verification of the floccus-bookmarks-to-markdown conversion core against its
source (`src/main.ts`).

Modelling conventions (shallow embedding):
* JavaScript strings are modelled as `List Char` (`JStr`); string concatenation
  is list append, template literals are appends of their pieces.
* The xml2js parse result consumed by `writeFolderStructure` is modelled by
  `Element`: a node optionally carries a `title` key (an array of strings,
  `element.title[0]` is read), a `bookmark` key (array of bookmark objects) and
  a `folder` key (array of child elements).  xml2js omits a key entirely when
  the corresponding child elements are absent, hence the `Option`s; a present
  key is always an array.  `ElemList` is a specialised list of elements so that
  the renderer can be defined by structural mutual recursion.
* A bookmark object (`BM`) optionally carries its attribute object `$`
  (itself optionally carrying `href`) and a `title` array.  Reading a property
  of an absent (`undefined`) object throws a TypeError in JavaScript; the
  renderer therefore returns `Except Unit JStr`, with `.error ()` standing for
  a thrown TypeError.  Reading an absent property of a *present* object yields
  `undefined`, which stringifies to "undefined" inside a template literal
  (`jsStr`, `listHead`).
-/
abbrev JStr := List Char

def str (s : String) : JStr := s.data

/-- JavaScript `xs[0]` on an array of strings used inside string
concatenation: an empty array gives `undefined`, stringified. -/
def listHead : List JStr → JStr
  | [] => str "undefined"
  | t :: _ => t

/-- JavaScript stringification of a possibly-`undefined` string value. -/
def jsStr : Option JStr → JStr
  | none => str "undefined"
  | some s => s

/-- A parsed `<bookmark>` element: `attr` models the xml2js attribute object
`$` (absent when the element has no attributes; when present, `href` may
still be absent), `title` models the `title` child array. -/
structure BM where
  attr : Option (Option JStr)
  title : Option (List JStr)
deriving DecidableEq, Repr

mutual
/-- A parsed element as fed to `writeFolderStructure`:
`title`/`bookmark`/`folder` keys, each absent or an array. -/
inductive Element where
  | mk (title : Option (List JStr)) (bookmark : Option (List BM)) (folder : Option ElemList)
/-- A list of elements (specialised so recursion over it is structural). -/
inductive ElemList where
  | nil
  | cons (head : Element) (tail : ElemList)
end

/-- The list the bookmark `forEach` iterates over: absent key means the
`Array.isArray` guard fails and the loop body never runs. -/
def bmList : Option (List BM) → List BM
  | none => []
  | some l => l

/-- The bookmark loop of `writeFolderStructure` (src/main.ts:181-189):
`const link = bookmark.$.href; const title = bookmark.title[0];
data += `[${title}](${link})` + '\n';`.  Accessing `.href` on an absent `$`,
or `[0]` on an absent `title`, throws. -/
def renderBookmarks : List BM → Except Unit JStr
  | [] => .ok []
  | bm :: rest =>
    match bm.attr with
    | none => .error ()
    | some h =>
      match bm.title with
      | none => .error ()
      | some ts =>
        match renderBookmarks rest with
        | .error e => .error e
        | .ok r =>
          .ok (str "[" ++ listHead ts ++ str "](" ++ jsStr h ++ str ")" ++ ['\n'] ++ r)

/-- The folder title of src/main.ts:172:
`element.title ? element.title[0] : 'Bookmarks'` (a present array is always
truthy in JavaScript, even when empty). -/
def titleValue : Option (List JStr) → JStr
  | none => str "Bookmarks"
  | some ts => listHead ts

/-- The heading prefix built by src/main.ts:171-179: emitted only when the
element owns a `folder` or `bookmark` key; a blank line precedes it when
`level !== 0`; the marker is `'#'.repeat(level+1)`. -/
def headPartOf (t : Option (List JStr)) (hasEntry : Bool) (level : Nat) : JStr :=
  if hasEntry then
    (if level ≠ 0 then ['\n'] else []) ++ List.replicate (level+1) '#' ++ [' '] ++
      titleValue t ++ ['\n']
  else []

mutual
/-- `writeFolderStructure` of src/main.ts:166-200, split on the presence of
the `folder` key so that the recursion is structural.  Order as in the
source: heading part, then the bookmark loop, then the subfolder loop at
`level + 1`. -/
def writeFolderStructure : Element → Nat → Except Unit JStr
  | .mk t b none, level =>
    let headPart : JStr := headPartOf t (false || b.isSome) level
    match renderBookmarks (bmList b) with
    | .error e => .error e
    | .ok bmPart => .ok (headPart ++ bmPart)
  | .mk t b (some fs), level =>
    let headPart : JStr := headPartOf t (true || b.isSome) level
    match renderBookmarks (bmList b) with
    | .error e => .error e
    | .ok bmPart =>
      match renderFolders fs (level+1) with
      | .error e => .error e
      | .ok subPart => .ok (headPart ++ bmPart ++ subPart)
/-- The subfolder `forEach` of src/main.ts:191-196: renders each child in
order, appending the results; a throw aborts the remainder. -/
def renderFolders : ElemList → Nat → Except Unit JStr
  | .nil, _ => .ok []
  | .cons e rest, level =>
    match writeFolderStructure e level with
    | .error err => .error err
    | .ok a =>
      match renderFolders rest level with
      | .error err => .error err
      | .ok bs => .ok (a ++ bs)
end

/-- The end-to-end example tree
`Folder("Bookmarks", [Link("Example","https://example.com"),
Folder("Sub", [Link("Nested","https://nested.example")])])` in element form
(xml2js groups bookmark children and folder children into separate arrays). -/
def exTree : Element :=
  .mk (some [str "Bookmarks"])
    (some [⟨some (some (str "https://example.com")), some [str "Example"]⟩])
    (some (.cons (.mk (some [str "Sub"])
      (some [⟨some (some (str "https://nested.example")), some [str "Nested"]⟩]) none) .nil))

/-- A well-formed bookmark used in concrete runs. -/
def bmX : BM := ⟨some (some (str "https://x")), some [str "X"]⟩

/-- A depth-1 folder with no `title` key (and one bookmark child). -/
def untitledSub : Element := .mk none (some [bmX]) none

/-- A titled root whose only subfolder lacks a title. -/
def rootWithUntitledSub : Element :=
  .mk (some [str "T"]) none (some (.cons untitledSub .nil))

/-- A bookmark entry with no attribute object at all (hence no target URI). -/
def bmNoAttr : BM := ⟨none, some [str "T"]⟩

/-- A bookmark entry with an attribute object but no `href`. -/
def bmNoHref : BM := ⟨some none, some [str "T"]⟩

/-- A bookmark entry with no `title` key. -/
def bmNoTitle : BM := ⟨some (some (str "https://x")), none⟩

/-- The heading line (without its terminating newline) for a node rendered at
a given level: `'#'.repeat(level+1) + ' ' + folderTitle`. -/
def headingLineU (t : Option (List JStr)) (level : Nat) : JStr :=
  List.replicate (level+1) '#' ++ [' '] ++ titleValue t

/-- The link line (without its terminating newline) for a bookmark entry:
`[${title}](${link})`. -/
def linkLineU (bm : BM) : JStr :=
  str "[" ++ listHead (bm.title.getD []) ++ str "](" ++ jsStr (bm.attr.getD none) ++ str ")"

/-- The blank separator emitted before a heading at positive depth, as a
(possibly empty) list of blank lines. -/
def blanksAt (level : Nat) : List JStr := if level ≠ 0 then [([] : JStr)] else []

mutual
/-- The renderer output decomposed into its emitted units (lines before their
terminating newline): optional blank separator and heading, then link lines,
then subfolder units, in the order of src/main.ts:166-200. -/
def renderUnits : Element → Nat → List JStr
  | .mk t b none, level =>
    (if (false || b.isSome) then blanksAt level ++ [headingLineU t level] else [])
      ++ (bmList b).map linkLineU
  | .mk t b (some fs), level =>
    (blanksAt level ++ [headingLineU t level])
      ++ (bmList b).map linkLineU
      ++ unitsFolders fs (level+1)
/-- Units of a list of subfolders, in order. -/
def unitsFolders : ElemList → Nat → List JStr
  | .nil, _ => []
  | .cons e rest, level => renderUnits e level ++ unitsFolders rest level
end

/-- Join units, terminating each with exactly one newline — the shape of the
renderer's accumulated `data` string. -/
def joinNl (us : List JStr) : JStr := (us.map (fun u => u ++ ['\n'])).flatten

/-- A bookmark entry the renderer can process without throwing: its attribute
object and its title array are both present. -/
def wfBM (bm : BM) : Bool := bm.attr.isSome && bm.title.isSome

mutual
/-- Every bookmark entry reachable in the element is well formed. -/
def wfElem : Element → Bool
  | .mk _ b none => (bmList b).all wfBM
  | .mk _ b (some fs) => (bmList b).all wfBM && wfElems fs
/-- Well-formedness over a list of elements. -/
def wfElems : ElemList → Bool
  | .nil => true
  | .cons e rest => wfElem e && wfElems rest
end

/-- Split a string into its lines at newline characters (the inverse of
`joinNl` on newline-free units). -/
def splitNl : JStr → List JStr
  | [] => [[]]
  | c :: cs =>
    if c = '\n' then [] :: splitNl cs
    else
      match splitNl cs with
      | [] => [[c]]
      | l :: ls => (c :: l) :: ls

mutual
/-- Modelled from the spec (§8, first testable property): the expected line
sequence of `render` — exactly one heading line per folder node that has at
least one child (in the parsed form, a present `folder` or `bookmark` key),
and exactly one link line per link node, in document order: a node's heading,
then its link lines in order, then its subfolders' lines in order. -/
def specLines : Element → Nat → List JStr
  | .mk t b none, level =>
    (if b.isSome then [headingLineU t level] else [])
      ++ (bmList b).map linkLineU
  | .mk t b (some fs), level =>
    [headingLineU t level]
      ++ (bmList b).map linkLineU
      ++ specLinesF fs (level+1)
/-- Expected lines of a list of subfolders, in order. -/
def specLinesF : ElemList → Nat → List JStr
  | .nil, _ => []
  | .cons e rest, level => specLines e level ++ specLinesF rest level
end

/-!
Backup rotation and orchestration model.

The storage side of `processXBELFileData`, `backupExistingFile` and
`deleteOldBackups` (src/main.ts:69-164) is modelled over an explicit vault
state: files carry the `TFile` properties the code reads (`path`, `parent`
folder, `basename`, `extension`) plus content and a last-modified time.
The source fires `createFolder` and `rename` without awaiting their
promises; the model applies their effects in program order, and a Boolean
`renameOk` injects an I/O failure of the rename — a rejected, unawaited
promise leaves the vault unchanged and does not abort the caller.
-/
/-- A vault file with the `TFile` properties the code reads. -/
structure VFile where
  path : JStr
  parent : JStr
  basename : JStr
  extension : JStr
  content : JStr
  mtime : Int
deriving DecidableEq, Repr

/-- The vault: files plus the set of existing folders. -/
structure Vault where
  files : List VFile
  folders : List JStr
deriving DecidableEq, Repr

/-- Observable effects of a run, for stating reachability of steps. -/
inductive Event where
  | renamed (src dst : JStr)
  | renameFailed (src dst : JStr)
  | trashed (p : JStr)
  | createAttempt (p : JStr)
  | createFailed (p : JStr)
  | created (p : JStr)
  | errorLogged
deriving DecidableEq, Repr

/-- `vault.getAbstractFileByPath` restricted to files. -/
def getFile (v : Vault) (p : JStr) : Option VFile :=
  v.files.find? (fun f => f.path = p)

/-- The local wall-clock components at the moment of rotation. -/
structure LocalTime where
  year : Nat
  month : Nat
  day : Nat
  hour : Nat
  minute : Nat
  second : Nat
deriving DecidableEq, Repr

/-- Two-digit zero-padded decimal rendering of a calendar component. -/
def pad2 (n : Nat) : JStr := [Nat.digitChar (n / 10 % 10), Nat.digitChar (n % 10)]

/-- Four-digit zero-padded decimal rendering of the year. -/
def pad4 (n : Nat) : JStr :=
  [Nat.digitChar (n / 1000 % 10), Nat.digitChar (n / 100 % 10),
    Nat.digitChar (n / 10 % 10), Nat.digitChar (n % 10)]

/-- The date suffix of src/main.ts:118-121:
`localTime.toISOString().slice(0, 19).replace(/[-T:]/g, '')` for a local time
with the given components — `toISOString` renders zero-padded
`YYYY-MM-DDTHH:MM:SS…`, the slice keeps the first 19 characters and the
replace deletes the five separators, leaving the 14 digits.  The model is
faithful for calendar-valid components with `year ≤ 9999` (beyond that
`toISOString` switches to expanded-year form and the slice misbehaves). -/
def dateSuffix (t : LocalTime) : JStr :=
  pad4 t.year ++ pad2 t.month ++ pad2 t.day ++ pad2 t.hour ++ pad2 t.minute ++ pad2 t.second

/-- The characters before the last dot of a name, if it has a dot. -/
def beforeLastDot : JStr → Option JStr
  | [] => none
  | c :: cs =>
    match beforeLastDot cs with
    | some r => some (c :: r)
    | none => if c = '.' then some [] else none

/-- Node's `path.parse(name).name` for a bare file name: everything before
the last dot, except that a lone leading dot (dotfile) is kept whole. -/
def parseName (s : JStr) : JStr :=
  match beforeLastDot s with
  | none => s
  | some [] => s
  | some r => r

/-- The characters after the last dot of a name, if it has a dot. -/
def afterLastDot : JStr → Option JStr
  | [] => none
  | c :: cs =>
    match afterLastDot cs with
    | some r => some r
    | none => if c = '.' then some cs else none

/-- Extension part of a file name (empty when it has none). -/
def extOf (s : JStr) : JStr := (afterLastDot s).getD []

/-- The backup name of src/main.ts:130-133:
`${parse(file.basename).name}-${dateSuffix}.${file.extension}` — note the
source re-parses the already extension-free `basename`, so anything after a
dot *inside* the base name is dropped a second time. -/
def backupFileName (basename extension : JStr) (now : LocalTime) : JStr :=
  parseName basename ++ ['-'] ++ dateSuffix now ++ ['.'] ++ extension

/-- `backupExistingFile` of src/main.ts:116-138: ensure the backup folder
exists, then rename the existing output to the timestamped backup path.
`renameOk = false` injects a rename failure (the rejected promise is not
awaited, so the vault is simply left unchanged).  The renamed record keeps
its `basename`/`extension` fields; nothing later reads them. -/
def backupExistingFile (v : Vault) (file : VFile) (backupFolderPath : JStr) (now : LocalTime)
    (renameOk : Bool) : Vault × List Event :=
  let v1 := if backupFolderPath ∈ v.folders then v
            else { v with folders := backupFolderPath :: v.folders }
  let bpath := backupFolderPath ++ str "/" ++ backupFileName file.basename file.extension now
  if renameOk then
    ({ v1 with files := v1.files.map (fun g =>
        if g = file then { g with path := bpath, parent := backupFolderPath } else g) },
      [Event.renamed file.path bpath])
  else (v1, [Event.renameFailed file.path bpath])

/-- Ordering used by the backup sort comparator of src/main.ts:150-154:
ascending last-modified time. -/
def byMtime : VFile → VFile → Prop := fun a b => a.mtime ≤ b.mtime

instance : DecidableRel byMtime := fun a b => Int.decLe a.mtime b.mtime

instance : IsTotal VFile byMtime := ⟨fun a b => Int.le_total a.mtime b.mtime⟩

instance : IsTrans VFile byMtime := ⟨fun _ _ _ hab hbc => le_trans hab hbc⟩

/-- The in-place `backupFiles.sort((a, b) => a.stat.mtime - b.stat.mtime)` of
src/main.ts:150-154, modelled as a stable comparison sort on mtime (the
source comparator leaves ties to the engine's ordering). -/
def sortByMtime (l : List VFile) : List VFile := List.insertionSort byMtime l

/-- `filesToDelete = backupFiles.length - keepCount+1` (src/main.ts:157). -/
def pruneToDelete (entries : List VFile) (keepCount : Int) : Int :=
  (entries.length : Int) - keepCount + 1

/-- The files trashed by `deleteOldBackups` (src/main.ts:157-163): when
`filesToDelete > 0`, the first `filesToDelete` entries of the sorted listing
(`slice(0, filesToDelete)`), otherwise none. -/
def pruneDeleted (entries : List VFile) (keepCount : Int) : List VFile :=
  if 0 < pruneToDelete entries keepCount then
    (sortByMtime entries).take (pruneToDelete entries keepCount).toNat
  else []

/-- The backup entries surviving one `deleteOldBackups` run, in their sorted
order (the source sorts the children array in place). -/
def pruneSurvivors (entries : List VFile) (keepCount : Int) : List VFile :=
  if 0 < pruneToDelete entries keepCount then
    (sortByMtime entries).drop (pruneToDelete entries keepCount).toNat
  else sortByMtime entries

/-- `backupFolder.children` of the backup folder. -/
def folderChildren (v : Vault) (p : JStr) : List VFile :=
  v.files.filter (fun f => f.parent = p)

/-- `deleteOldBackups` of src/main.ts:140-164 at vault level: early return if
nothing exists at the backup folder path, otherwise trash the pruned files. -/
def deleteOldBackupsV (v : Vault) (backupFolderPath : JStr) (keepCount : Int) : Vault × List Event :=
  if backupFolderPath ∈ v.folders then
    let del := pruneDeleted (folderChildren v backupFolderPath) keepCount
    ({ v with files := v.files.filter (fun f => f ∉ del) },
      del.map (fun f => Event.trashed f.path))
  else (v, [])

/-- The settings fields `processXBELFileData` destructures. -/
structure Config where
  mdFolderPath : JStr
  mdFileName : JStr
  backupFolderPath : JStr
  keepCount : Int
deriving DecidableEq, Repr

/-- The output path `${mdFolderPath}/${mdFileName}` (src/main.ts:82). -/
def mdPath (cfg : Config) : JStr := cfg.mdFolderPath ++ str "/" ++ cfg.mdFileName

/-- Lines 92-94 of src/main.ts: back up the existing output, if any. -/
def backupStep (v : Vault) (cfg : Config) (now : LocalTime) (renameOk : Bool) :
    Vault × List Event :=
  match getFile v (mdPath cfg) with
  | some f => backupExistingFile v f cfg.backupFolderPath now renameOk
  | none => (v, [])

/-- The `try` block of src/main.ts:99-113: read (`xbel = none` models a read
failure), parse, render (a throw is caught and logged), then `vault.create`,
which rejects when a file already exists at the output path — that rejection
is caught and logged too, leaving the existing file in place. -/
def writeStep (v : Vault) (cfg : Config) (xbel : Option Element) : Vault × List Event :=
  match xbel with
  | none => (v, [Event.errorLogged])
  | some el =>
    match writeFolderStructure el 0 with
    | .error _ => (v, [Event.errorLogged])
    | .ok md =>
      if (getFile v (mdPath cfg)).isSome then
        (v, [Event.createAttempt (mdPath cfg), Event.createFailed (mdPath cfg), Event.errorLogged])
      else
        ({ v with files := v.files ++
            [⟨mdPath cfg, cfg.mdFolderPath, parseName cfg.mdFileName, extOf cfg.mdFileName, md, 0⟩] },
          [Event.createAttempt (mdPath cfg), Event.created (mdPath cfg)])

/-- `processXBELFileData` of src/main.ts:69-114: ensure the output folder,
back up an existing output, prune old backups, then read/parse/render/write
inside `try`.  (The code looks the output file up before creating the output
folder; folder creation does not change the file list, so looking it up
inside `backupStep` is equivalent.) -/
def processXBELFileData (v : Vault) (cfg : Config) (now : LocalTime) (renameOk : Bool)
    (xbel : Option Element) : Vault × List Event :=
  let v1 := if cfg.mdFolderPath ∈ v.folders then v
            else { v with folders := cfg.mdFolderPath :: v.folders }
  let p1 := backupStep v1 cfg now renameOk
  let p2 := deleteOldBackupsV p1.1 cfg.backupFolderPath cfg.keepCount
  let p3 := writeStep p2.1 cfg xbel
  (p3.1, p1.2 ++ p2.2 ++ p3.2)

/-- A fixed rotation clock time, 2024-01-02 03:04:05 local. -/
def nowFixed : LocalTime := ⟨2024, 1, 2, 3, 4, 5⟩

/-- An existing output file whose base name contains a dot. -/
def mdDotted : VFile :=
  ⟨str "out/my.notes.md", str "out", str "my.notes", str "md", str "old", 111⟩

/-- A vault holding only the dotted-name output file. -/
def vaultDotted : Vault := ⟨[mdDotted], [str "out", str "bk"]⟩

/-- A dot-free existing output file, as in the spec's naming example. -/
def mdPlain : VFile :=
  ⟨str "out/bookmarks.md", str "out", str "bookmarks", str "md", str "old", 100⟩

/-- A vault holding only the plain output file. -/
def vaultPlain : Vault := ⟨[mdPlain], [str "out", str "bk"]⟩

/-- A backup entry used in concrete prune runs. -/
def bk0 : VFile := ⟨str "bk/a.md", str "bk", str "a", str "md", str "c0", 10⟩

/-- A second, newer backup entry. -/
def bk1 : VFile := ⟨str "bk/b.md", str "bk", str "b", str "md", str "c1", 20⟩

/-- The settings used in concrete orchestration runs. -/
def cfgX : Config := ⟨str "md", str "bookmarks.md", str "bk", 5⟩

/-- The pre-existing output file of the concrete runs. -/
def mdOld : VFile :=
  ⟨str "md/bookmarks.md", str "md", str "bookmarks", str "md", str "old content", 50⟩

/-- A vault with the output file present and both folders existing. -/
def vaultX : Vault := ⟨[mdOld], [str "md", str "bk"]⟩

/-- C8: the specific input tree
`Folder("Bookmarks", [Link("Example","https://example.com"), Folder("Sub",
[Link("Nested","https://nested.example")])])` renders to exactly the text
`"# Bookmarks\n[Example](https://example.com)\n\n## Sub\n[Nested](https://nested.example)\n"`. -/
theorem C8_end_to_end_example :
    writeFolderStructure exTree 0 =
      .ok (str "# Bookmarks\n[Example](https://example.com)\n\n## Sub\n[Nested](https://nested.example)\n") :=
  rfl

/-- C2 counterexample: a *nested* (depth 1) folder lacking a title renders the
placeholder heading `## Bookmarks`, not an empty heading `## ` — the source
(src/main.ts:172) applies the `'Bookmarks'` default at every depth, so the
claimed "placeholder iff root" equivalence fails. -/
theorem C2_counterexample :
    writeFolderStructure rootWithUntitledSub 0 =
        .ok (str "# T\n\n## Bookmarks\n[X](https://x)\n") ∧
      str "# T\n\n## Bookmarks\n[X](https://x)\n" ≠ str "# T\n\n## \n[X](https://x)\n" :=
  ⟨rfl, by decide⟩

/-- C3 counterexample: a node whose bookmark entry lacks its attribute object
(so has no target URI) makes the renderer throw (`bookmark.$.href` on
`undefined`, src/main.ts:184) instead of skipping the entry; likewise a
missing title throws at `bookmark.title[0]` (src/main.ts:185). -/
theorem C3_counterexample :
    writeFolderStructure (.mk none (some [bmNoAttr]) none) 0 = .error () ∧
      writeFolderStructure (.mk none (some [bmNoTitle]) none) 0 = .error () ∧
      writeFolderStructure (.mk none (some [bmNoHref]) none) 0 =
        .ok (str "# Bookmarks\n[T](undefined)\n") :=
  ⟨rfl, rfl, rfl⟩

theorem joinNl_nil : joinNl [] = [] := rfl

theorem joinNl_cons (u : JStr) (us : List JStr) :
    joinNl (u :: us) = u ++ ['\n'] ++ joinNl us := by
  simp [joinNl]

theorem joinNl_append (a b : List JStr) : joinNl (a ++ b) = joinNl a ++ joinNl b := by
  simp [joinNl]

theorem headPartOf_eq_joinNl (t : Option (List JStr)) (hasEntry : Bool) (level : Nat) :
    headPartOf t hasEntry level =
      joinNl (if hasEntry then blanksAt level ++ [headingLineU t level] else []) := by
  cases hasEntry with
  | false => rfl
  | true =>
    by_cases h : level ≠ 0 <;>
      simp [headPartOf, blanksAt, headingLineU, joinNl, h]

theorem renderBookmarks_eq_units (l : List BM) (h : l.all wfBM = true) :
    renderBookmarks l = .ok (joinNl (l.map linkLineU)) := by
  induction l with
  | nil => rfl
  | cons bm rest ih =>
    rw [List.all_cons, Bool.and_eq_true] at h
    obtain ⟨hbm, hrest⟩ := h
    rw [wfBM, Bool.and_eq_true] at hbm
    obtain ⟨a, hA⟩ := Option.isSome_iff_exists.mp hbm.1
    obtain ⟨ts, hT⟩ := Option.isSome_iff_exists.mp hbm.2
    simp [renderBookmarks, hA, hT, ih hrest, joinNl, linkLineU]

theorem renderBookmarks_eq_error (l : List BM) (h : l.all wfBM = false) :
    renderBookmarks l = .error () := by
  induction l with
  | nil => simp at h
  | cons bm rest ih =>
    rw [List.all_cons, Bool.and_eq_false_iff] at h
    cases h with
    | inl hbm =>
      rw [wfBM, Bool.and_eq_false_iff] at hbm
      cases hbm with
      | inl ha =>
        have : bm.attr = none := Option.not_isSome_iff_eq_none.mp (by simp [ha])
        simp [renderBookmarks, this]
      | inr ht =>
        have hT : bm.title = none := Option.not_isSome_iff_eq_none.mp (by simp [ht])
        cases hA : bm.attr <;> simp [renderBookmarks, hA, hT]
    | inr hrest =>
      cases hA : bm.attr with
      | none => simp [renderBookmarks, hA]
      | some a =>
        cases hT : bm.title with
        | none => simp [renderBookmarks, hA, hT]
        | some ts => simp [renderBookmarks, hA, hT, ih hrest]

theorem wfs_none (t : Option (List JStr)) (b : Option (List BM)) (level : Nat) :
    writeFolderStructure (.mk t b none) level =
      match renderBookmarks (bmList b) with
      | .error e => .error e
      | .ok bmPart => .ok (headPartOf t (false || b.isSome) level ++ bmPart) := rfl

theorem wfs_some (t : Option (List JStr)) (b : Option (List BM)) (fs : ElemList) (level : Nat) :
    writeFolderStructure (.mk t b (some fs)) level =
      match renderBookmarks (bmList b) with
      | .error e => .error e
      | .ok bmPart =>
        match renderFolders fs (level+1) with
        | .error e => .error e
        | .ok subPart => .ok (headPartOf t (true || b.isSome) level ++ bmPart ++ subPart) := rfl

theorem rf_cons (e : Element) (rest : ElemList) (level : Nat) :
    renderFolders (.cons e rest) level =
      match writeFolderStructure e level with
      | .error err => .error err
      | .ok a =>
        match renderFolders rest level with
        | .error err => .error err
        | .ok bs => .ok (a ++ bs) := rfl

mutual
theorem render_eq_units : ∀ (e : Element) (level : Nat), wfElem e = true →
    writeFolderStructure e level = .ok (joinNl (renderUnits e level))
  | .mk t b none, level, h => by
    simp only [wfElem] at h
    rw [wfs_none, renderBookmarks_eq_units _ h]
    simp only [renderUnits, joinNl_append, headPartOf_eq_joinNl]
  | .mk t b (some fs), level, h => by
    simp only [wfElem, Bool.and_eq_true] at h
    rw [wfs_some, renderBookmarks_eq_units _ h.1,
      renderFolders_eq_units fs (level+1) h.2]
    simp only [renderUnits, joinNl_append, headPartOf_eq_joinNl, List.append_assoc]
    simp [joinNl_append]
theorem renderFolders_eq_units : ∀ (fs : ElemList) (level : Nat), wfElems fs = true →
    renderFolders fs level = .ok (joinNl (unitsFolders fs level))
  | .nil, _, _ => rfl
  | .cons e rest, level, h => by
    simp only [wfElems, Bool.and_eq_true] at h
    rw [rf_cons, render_eq_units e level h.1, renderFolders_eq_units rest level h.2]
    simp only [unitsFolders, joinNl_append]
end

mutual
theorem render_err : ∀ (e : Element) (level : Nat), wfElem e = false →
    writeFolderStructure e level = .error ()
  | .mk t b none, level, h => by
    simp only [wfElem] at h
    rw [wfs_none, renderBookmarks_eq_error _ h]
  | .mk t b (some fs), level, h => by
    simp only [wfElem, Bool.and_eq_false_iff] at h
    cases h with
    | inl hb => rw [wfs_some, renderBookmarks_eq_error _ hb]
    | inr hfs =>
      cases hb : (bmList b).all wfBM with
      | false => rw [wfs_some, renderBookmarks_eq_error _ hb]
      | true =>
        rw [wfs_some, renderBookmarks_eq_units _ hb,
          renderFolders_err fs (level+1) hfs]
theorem renderFolders_err : ∀ (fs : ElemList) (level : Nat), wfElems fs = false →
    renderFolders fs level = .error ()
  | .cons e rest, level, h => by
    simp only [wfElems, Bool.and_eq_false_iff] at h
    cases h with
    | inl he => rw [rf_cons, render_err e level he]
    | inr hrest =>
      cases hwf : wfElem e with
      | false => rw [rf_cons, render_err e level hwf]
      | true =>
        rw [rf_cons, render_eq_units e level hwf,
          renderFolders_err rest level hrest]
end

/-- C3: the renderer succeeds exactly on inputs all of whose bookmark entries
carry both an attribute object and a title array; an entry missing either
makes `writeFolderStructure` throw a TypeError (modelled as `.error ()`),
aborting the render instead of skipping the entry. -/
theorem C3_render_ok_iff_wellformed : ∀ (e : Element) (level : Nat),
    (∃ s, writeFolderStructure e level = Except.ok s) ↔ wfElem e = true := by
  intro e level
  constructor
  · rintro ⟨s, hs⟩
    cases h : wfElem e with
    | true => rfl
    | false => rw [render_err e level h] at hs; exact absurd hs (by simp)
  · intro h
    exact ⟨_, render_eq_units e level h⟩

/-- C3 witness: a concrete well-formed tree renders without error. -/
theorem C3_witness : ∃ s, writeFolderStructure exTree 0 = Except.ok s :=
  (C3_render_ok_iff_wellformed exTree 0).mpr (by decide)

theorem render_head_structure (t : Option (List JStr)) (b : Option (List BM)) (f : Option ElemList)
    (level : Nat) (s : JStr)
    (h : writeFolderStructure (.mk t b f) level = Except.ok s)
    (he : (f.isSome || b.isSome) = true) :
    ∃ rest, s = (if level ≠ 0 then ['\n'] else []) ++ List.replicate (level+1) '#' ++ [' '] ++
      titleValue t ++ ['\n'] ++ rest := by
  cases f with
  | none =>
    simp only [Option.isSome_none, Bool.false_or] at he
    rw [wfs_none] at h
    generalize hrb : renderBookmarks (bmList b) = rb at h
    cases rb with
    | error e => simp at h
    | ok bmPart =>
      simp only [Except.ok.injEq] at h
      refine ⟨bmPart, ?_⟩
      rw [← h]
      simp [headPartOf, he, List.append_assoc]
  | some fs =>
    rw [wfs_some] at h
    generalize hrb : renderBookmarks (bmList b) = rb at h
    cases rb with
    | error e => simp at h
    | ok bmPart =>
      generalize hrf : renderFolders fs (level+1) = rf at h
      cases rf with
      | error e => simp at h
      | ok subPart =>
        simp only [Except.ok.injEq] at h
        refine ⟨bmPart ++ subPart, ?_⟩
        rw [← h]
        simp [headPartOf, List.append_assoc]

/-- C6: whenever a folder node that emits a heading is rendered at depth
`level`, the output starts with a single blank line exactly when `level > 0`
(never at `level = 0`), followed by a heading whose marker weight is exactly
`level + 1` hash characters — for every `level`, with no clamping. -/
theorem C6_blank_iff_depth_and_uncapped_weight :
    ∀ (t : Option (List JStr)) (b : Option (List BM)) (f : Option ElemList) (level : Nat) (s : JStr),
    writeFolderStructure (Element.mk t b f) level = Except.ok s →
    (f.isSome || b.isSome) = true →
    ∃ rest, s = (if 0 < level then ['\n'] else []) ++ List.replicate (level+1) '#' ++ [' '] ++
      titleValue t ++ ['\n'] ++ rest := by
  intro t b f level s h he
  obtain ⟨rest, hr⟩ := render_head_structure t b f level s h he
  have hif : (if level ≠ 0 then (['\n'] : JStr) else []) = (if 0 < level then ['\n'] else []) := by
    by_cases h0 : level = 0
    · simp [h0]
    · simp [h0, Nat.pos_of_ne_zero h0]
  rw [hif] at hr
  exact ⟨rest, hr⟩

/-- C6 witness: a concrete node with a bookmark child, rendered at depth 1,
exhibits the blank separator and a weight-2 heading. -/
theorem C6_witness :
    writeFolderStructure untitledSub 1 = Except.ok (str "\n## Bookmarks\n[X](https://x)\n") ∧
    ((none : Option ElemList).isSome || (some [bmX] : Option (List BM)).isSome) = true ∧
    ∃ rest, str "\n## Bookmarks\n[X](https://x)\n" =
      (if 0 < 1 then ['\n'] else []) ++ List.replicate 2 '#' ++ [' '] ++
        titleValue none ++ ['\n'] ++ rest :=
  ⟨rfl, rfl, C6_blank_iff_depth_and_uncapped_weight none (some [bmX]) none 1 _ rfl rfl⟩

/-- C2 amended: a folder node lacking a `title` key renders the placeholder
heading text "Bookmarks" at *every* depth — root and nested alike — whenever
it emits a heading at all; no depth renders an empty heading text. -/
theorem C2_amended_placeholder_at_every_depth :
    ∀ (b : Option (List BM)) (f : Option ElemList) (level : Nat) (s : JStr),
    writeFolderStructure (Element.mk none b f) level = Except.ok s →
    (f.isSome || b.isSome) = true →
    ∃ rest, s = (if level ≠ 0 then ['\n'] else []) ++ List.replicate (level+1) '#' ++ [' '] ++
      str "Bookmarks" ++ ['\n'] ++ rest := by
  intro b f level s h he
  exact render_head_structure none b f level s h he

/-- C2 witness: the untitled depth-1 node renders the placeholder heading. -/
theorem C2_witness :
    writeFolderStructure untitledSub 1 = Except.ok (str "\n## Bookmarks\n[X](https://x)\n") ∧
    ∃ rest, str "\n## Bookmarks\n[X](https://x)\n" =
      (if 1 ≠ 0 then ['\n'] else []) ++ List.replicate 2 '#' ++ [' '] ++
        str "Bookmarks" ++ ['\n'] ++ rest :=
  ⟨rfl, C2_amended_placeholder_at_every_depth (some [bmX]) none 1 _ rfl rfl⟩

theorem splitNl_append_newline (u rest : JStr) (hu : ('\n' : Char) ∉ u) :
    splitNl (u ++ '\n' :: rest) = u :: splitNl rest := by
  induction u with
  | nil => simp [splitNl]
  | cons c cs ih =>
    have hc : ¬(c = '\n') := by
      intro e
      exact hu (by simp [e])
    have hcs : ('\n' : Char) ∉ cs := fun m => hu (by simp [m])
    simp only [List.cons_append, splitNl, List.append_eq]
    rw [if_neg hc, ih hcs]

theorem splitNl_joinNl (us : List JStr) (h : ∀ u ∈ us, ('\n' : Char) ∉ u) :
    splitNl (joinNl us) = us ++ [[]] := by
  induction us with
  | nil => simp [joinNl, splitNl]
  | cons u rest ih =>
    rw [joinNl_cons]
    have he : u ++ ['\n'] ++ joinNl rest = u ++ '\n' :: joinNl rest := by simp
    rw [he, splitNl_append_newline u _ (h u (by simp)), ih (fun v hv => h v (by simp [hv]))]
    simp

theorem headingLineU_ne_nil (t : Option (List JStr)) (level : Nat) : headingLineU t level ≠ [] := by
  simp [headingLineU, List.replicate]

theorem linkLineU_ne_nil (bm : BM) : linkLineU bm ≠ [] := by
  simp [linkLineU, str]

theorem filter_head_units (t : Option (List JStr)) (level : Nat) :
    (blanksAt level ++ [headingLineU t level]).filter (fun u => u ≠ ([] : JStr)) =
      [headingLineU t level] := by
  by_cases h0 : level = 0
  · subst h0
    simp [blanksAt, List.filter_cons, headingLineU_ne_nil t 0]
  · simp [blanksAt, h0, List.filter_cons, headingLineU_ne_nil t level]

theorem filter_link_units (l : List BM) :
    (l.map linkLineU).filter (fun u => u ≠ ([] : JStr)) = l.map linkLineU := by
  refine List.filter_eq_self.mpr ?_
  intro u hu
  obtain ⟨bm, _, rfl⟩ := List.mem_map.mp hu
  simp [linkLineU_ne_nil bm]

mutual
theorem filter_renderUnits : ∀ (e : Element) (level : Nat),
    (renderUnits e level).filter (fun u => u ≠ ([] : JStr)) = specLines e level
  | .mk t b none, level => by
    cases hb : b.isSome with
    | false =>
      have hbn : b = none := Option.not_isSome_iff_eq_none.mp (by simp [hb])
      subst hbn
      simp [renderUnits, specLines, bmList]
    | true =>
      simp only [renderUnits, specLines, hb, Bool.false_or, if_pos]
      rw [List.filter_append, filter_head_units, filter_link_units]
  | .mk t b (some fs), level => by
    simp only [renderUnits, specLines]
    rw [List.filter_append, List.filter_append, filter_head_units, filter_link_units,
      filter_unitsFolders fs (level+1)]
theorem filter_unitsFolders : ∀ (fs : ElemList) (level : Nat),
    (unitsFolders fs level).filter (fun u => u ≠ ([] : JStr)) = specLinesF fs level
  | .nil, _ => rfl
  | .cons e rest, level => by
    simp only [unitsFolders, specLinesF]
    rw [List.filter_append, filter_renderUnits e level, filter_unitsFolders rest level]
end

/-- C5: for every input whose bookmark entries are well formed and whose
emitted units contain no embedded newline, the lines of the rendered output
(after dropping the blank separator lines) are exactly one heading line per
folder node owning children and one link line per bookmark entry, in document
order — as recorded by the spec-side `specLines`. -/
theorem C5_lines_in_document_order :
    ∀ (e : Element) (level : Nat) (s : JStr),
    wfElem e = true →
    (∀ u ∈ renderUnits e level, ('\n' : Char) ∉ u) →
    writeFolderStructure e level = Except.ok s →
    (splitNl s).filter (fun u => u ≠ ([] : JStr)) = specLines e level := by
  intro e level s hwf hnl hr
  have h2 := render_eq_units e level hwf
  rw [hr] at h2
  injection h2 with hs
  rw [hs, splitNl_joinNl _ hnl, List.filter_append, filter_renderUnits]
  simp

/-- C5 witness: the end-to-end example satisfies the hypotheses and its line
decomposition matches `specLines`. -/
theorem C5_witness :
    wfElem exTree = true ∧
    (∀ u ∈ renderUnits exTree 0, ('\n' : Char) ∉ u) ∧
    (splitNl (str "# Bookmarks\n[Example](https://example.com)\n\n## Sub\n[Nested](https://nested.example)\n")).filter
        (fun u => u ≠ ([] : JStr)) = specLines exTree 0 :=
  ⟨rfl, by decide, C5_lines_in_document_order exTree 0 _ rfl (by decide) rfl⟩

theorem joinNl_nil_or_ends (us : List JStr) :
    joinNl us = [] ∨ ∃ p, joinNl us = p ++ ['\n'] := by
  induction us with
  | nil => exact Or.inl rfl
  | cons u rest ih =>
    right
    rw [joinNl_cons]
    cases ih with
    | inl h => exact ⟨u, by rw [h]; simp⟩
    | inr h =>
      obtain ⟨p, hp⟩ := h
      exact ⟨u ++ ['\n'] ++ p, by rw [hp]; simp⟩

/-- C10: every successful render output is a concatenation of emitted units
each terminated by exactly one newline; in particular the output is either
empty or ends with a newline character. -/
theorem C10_output_units_newline_terminated :
    ∀ (e : Element) (level : Nat) (s : JStr),
    writeFolderStructure e level = Except.ok s →
    (∃ us, s = joinNl us) ∧ (s = [] ∨ ∃ p, s = p ++ ['\n']) := by
  intro e level s h
  have hwf : wfElem e = true := by
    cases hw : wfElem e with
    | true => rfl
    | false => rw [render_err e level hw] at h; exact absurd h (by simp)
  have h2 := render_eq_units e level hwf
  rw [h] at h2
  injection h2 with hs
  exact ⟨⟨renderUnits e level, hs⟩, hs ▸ joinNl_nil_or_ends (renderUnits e level)⟩

/-- C10 witness: the end-to-end example output is a newline-terminated unit
concatenation. -/
theorem C10_witness :
    (∃ us, str "# Bookmarks\n[Example](https://example.com)\n\n## Sub\n[Nested](https://nested.example)\n" = joinNl us) ∧
    (str "# Bookmarks\n[Example](https://example.com)\n\n## Sub\n[Nested](https://nested.example)\n" = [] ∨
      ∃ p, str "# Bookmarks\n[Example](https://example.com)\n\n## Sub\n[Nested](https://nested.example)\n" = p ++ ['\n']) :=
  C10_output_units_newline_terminated exTree 0 _ rfl

/-- C9: pruning when nothing exists at the backup folder path is a total
no-op for every retention count: the vault is unchanged and nothing is
trashed, with no error. -/
theorem C9_prune_missing_folder_noop :
    ∀ (v : Vault) (backupFolderPath : JStr) (keepCount : Int),
    backupFolderPath ∉ v.folders →
    deleteOldBackupsV v backupFolderPath keepCount = (v, []) := by
  intro v p k h
  simp [deleteOldBackupsV, h]

/-- C9 witness: an empty vault with a negative retention count. -/
theorem C9_witness :
    (str "backups") ∉ (Vault.mk [] []).folders ∧
      deleteOldBackupsV (Vault.mk [] []) (str "backups") (-3) = (Vault.mk [] [], []) :=
  ⟨by decide, C9_prune_missing_folder_noop (Vault.mk [] []) (str "backups") (-3) (by decide)⟩

/-- C7 counterexample: rotating a file with base name `my.notes` and
extension `md` produces a backup named `my-20240102030405.md`, not
`my.notes-20240102030405.md` — src/main.ts:132 re-parses the extension-free
basename, truncating it at its last dot. -/
theorem C7_counterexample :
    (backupExistingFile vaultDotted mdDotted (str "bk") nowFixed true).1.files =
        [{ mdDotted with path := str "bk/my-20240102030405.md", parent := str "bk" }] ∧
      backupFileName (str "my.notes") (str "md") nowFixed ≠ str "my.notes-20240102030405.md" := by
  exact ⟨rfl, by decide⟩

theorem beforeLastDot_eq_none (s : JStr) (h : ('.' : Char) ∉ s) : beforeLastDot s = none := by
  induction s with
  | nil => rfl
  | cons c cs ih =>
    have hc : ¬(c = '.') := fun e => h (by simp [e])
    have hcs : ('.' : Char) ∉ cs := fun m => h (by simp [m])
    simp [beforeLastDot, ih hcs, hc]

theorem parseName_no_dot (s : JStr) (h : ('.' : Char) ∉ s) : parseName s = s := by
  simp [parseName, beforeLastDot_eq_none s h]

theorem digitChar_mod_isDigit (n : Nat) : (Nat.digitChar (n % 10)).isDigit = true := by
  have hall : ∀ m < 10, (Nat.digitChar m).isDigit = true := by decide
  exact hall (n % 10) (Nat.mod_lt _ (by decide))

theorem backupExistingFile_true_files (v : Vault) (file : VFile) (bfp : JStr) (now : LocalTime) :
    (backupExistingFile v file bfp now true).1.files =
      v.files.map (fun g => if g = file then
        { g with
          path := bfp ++ str "/" ++ backupFileName file.basename file.extension now
          parent := bfp } else g) := by
  by_cases hb : bfp ∈ v.folders <;> simp [backupExistingFile, hb]

/-- C7 amended: rotating an existing output file at a fixed clock time moves
it into the backup location under the name
`parse(basename).name-<timestamp>.<extension>` — the base name truncated at
its last dot, equal to `<basename>-<timestamp>.<extension>` whenever the base
name is dot-free — where the timestamp is the 14-digit local-time string, and
nothing remains at the original output path. -/
theorem C7_amended_backup_naming :
    ∀ (v : Vault) (file : VFile) (bfp : JStr) (now : LocalTime),
    file ∈ v.files →
    (∀ g ∈ v.files, g.path = file.path → g = file) →
    bfp ++ str "/" ++ backupFileName file.basename file.extension now ≠ file.path →
    now.year ≤ 9999 →
    ({ file with
        path := bfp ++ str "/" ++ backupFileName file.basename file.extension now
        parent := bfp } ∈ (backupExistingFile v file bfp now true).1.files ∧
      getFile (backupExistingFile v file bfp now true).1 file.path = none) ∧
    ((dateSuffix now).length = 14 ∧ ∀ c ∈ dateSuffix now, c.isDigit = true) ∧
    (('.' : Char) ∉ file.basename →
      backupFileName file.basename file.extension now =
        file.basename ++ ['-'] ++ dateSuffix now ++ ['.'] ++ file.extension) := by
  intro v file bfp now hmem huniq hne _hyear
  refine ⟨⟨?_, ?_⟩, ⟨?_, ?_⟩, ?_⟩
  · rw [backupExistingFile_true_files]
    have h2 := List.mem_map_of_mem
      (fun g => if g = file then
        { g with
          path := bfp ++ str "/" ++ backupFileName file.basename file.extension now
          parent := bfp } else g) hmem
    simpa using h2
  · simp only [getFile, backupExistingFile_true_files]
    refine List.find?_eq_none.mpr ?_
    intro g hg
    obtain ⟨g0, hg0, rfl⟩ := List.mem_map.mp hg
    by_cases he : g0 = file
    · subst he
      simp only [if_pos rfl, decide_eq_true_eq]
      exact hne
    · rw [if_neg he]
      simp only [decide_eq_true_eq]
      intro hp
      exact he (huniq g0 hg0 hp)
  · simp [dateSuffix, pad4, pad2]
  · intro c hc
    simp only [dateSuffix, pad4, pad2, List.mem_append, List.mem_cons,
      List.not_mem_nil, or_false] at hc
    casesm* _ ∨ _ <;> (rename_i h; rw [h]; exact digitChar_mod_isDigit _)
  · intro hdot
    simp [backupFileName, parseName_no_dot file.basename hdot]

/-- C7 witness: rotating `bookmarks.md` at the fixed clock time. -/
theorem C7_witness :
    mdPlain ∈ vaultPlain.files ∧
    ({ mdPlain with
        path := str "bk" ++ str "/" ++ backupFileName mdPlain.basename mdPlain.extension nowFixed
        parent := str "bk" } ∈ (backupExistingFile vaultPlain mdPlain (str "bk") nowFixed true).1.files ∧
      getFile (backupExistingFile vaultPlain mdPlain (str "bk") nowFixed true).1 mdPlain.path = none) ∧
    (dateSuffix nowFixed).length = 14 ∧
    backupFileName mdPlain.basename mdPlain.extension nowFixed =
      mdPlain.basename ++ ['-'] ++ dateSuffix nowFixed ++ ['.'] ++ mdPlain.extension := by
  have h := C7_amended_backup_naming vaultPlain mdPlain (str "bk") nowFixed
    (by decide) (by decide) (by decide) (by decide)
  exact ⟨by decide, h.1, h.2.1.1, h.2.2 (by decide)⟩

theorem length_sortByMtime (l : List VFile) : (sortByMtime l).length = l.length :=
  (List.perm_insertionSort byMtime l).length_eq

theorem perm_sortByMtime (l : List VFile) : (sortByMtime l).Perm l :=
  List.perm_insertionSort byMtime l

theorem sorted_sortByMtime (l : List VFile) : (sortByMtime l).Sorted byMtime :=
  List.sorted_insertionSort byMtime l

theorem sorted_take_drop (l : List VFile) (h : l.Sorted byMtime) (n : Nat) :
    ∀ a ∈ l.take n, ∀ b ∈ l.drop n, a.mtime ≤ b.mtime := by
  have h2 : List.Pairwise byMtime (l.take n ++ l.drop n) := by
    rw [List.take_append_drop]
    exact h
  exact (List.pairwise_append.mp h2).2.2

/-- C1 counterexample: with one backup entry and `retentionCount = 0`
(non-negative, as the claim allows), `toDelete = 1 - 0 + 1 = 2 > 0`, yet only
1 entry is deleted — the prune cannot delete "exactly `toDelete` entries"
when `toDelete` exceeds the folder's size. -/
theorem C1_counterexample :
    pruneToDelete [bk0] 0 = 2 ∧ 0 < pruneToDelete [bk0] 0 ∧
      ((pruneDeleted [bk0] 0).length : Int) ≠ pruneToDelete [bk0] 0 := by
  refine ⟨by decide, by decide, ?_⟩
  have h1 : (pruneDeleted [bk0] 0).length = 1 := by decide
  rw [h1]
  decide

/-- C1 amended: the prune computes `toDelete = n - retentionCount + 1` and,
when positive, deletes the `min toDelete n` oldest entries by ascending
last-modified time, leaving the rest untouched; for `retentionCount ≥ 1` the
count deleted is exactly `toDelete`, and after enough runs — each adding one
fresh backup then pruning — the surviving count stabilizes at
`retentionCount - 1`. -/
theorem C1_amended_prune_and_retention :
    ∀ (entries : List VFile) (k : Int), 0 ≤ k →
    (pruneDeleted entries k ++ pruneSurvivors entries k = sortByMtime entries ∧
      (pruneDeleted entries k ++ pruneSurvivors entries k).Perm entries) ∧
    (∀ d ∈ pruneDeleted entries k, ∀ srv ∈ pruneSurvivors entries k, d.mtime ≤ srv.mtime) ∧
    (0 < pruneToDelete entries k →
      (pruneDeleted entries k).length = min (pruneToDelete entries k).toNat entries.length) ∧
    (0 < pruneToDelete entries k → 1 ≤ k →
      ((pruneDeleted entries k).length : Int) = pruneToDelete entries k) ∧
    (1 ≤ k → ∀ (s0 news : List VFile), 1 ≤ news.length → k - 1 ≤ (news.length : Int) →
      ((news.foldl (fun s e => pruneSurvivors (s ++ [e]) k) s0).length : Int) = k - 1) := by
  intro entries k _hk
  have hpart : pruneDeleted entries k ++ pruneSurvivors entries k = sortByMtime entries := by
    by_cases h : 0 < pruneToDelete entries k <;>
      simp [pruneDeleted, pruneSurvivors, h, List.take_append_drop]
  have hperm : (pruneDeleted entries k ++ pruneSurvivors entries k).Perm entries := by
    rw [hpart]
    exact perm_sortByMtime entries
  have holdest : ∀ d ∈ pruneDeleted entries k, ∀ srv ∈ pruneSurvivors entries k,
      d.mtime ≤ srv.mtime := by
    by_cases h : 0 < pruneToDelete entries k
    · intro d hd srv hs
      rw [pruneDeleted, if_pos h] at hd
      rw [pruneSurvivors, if_pos h] at hs
      exact sorted_take_drop _ (sorted_sortByMtime entries) _ d hd srv hs
    · intro d hd
      rw [pruneDeleted, if_neg h] at hd
      simp at hd
  have hlen : 0 < pruneToDelete entries k →
      (pruneDeleted entries k).length = min (pruneToDelete entries k).toNat entries.length := by
    intro h
    rw [pruneDeleted, if_pos h, List.length_take, length_sortByMtime]
  have hlen2 : 0 < pruneToDelete entries k → 1 ≤ k →
      ((pruneDeleted entries k).length : Int) = pruneToDelete entries k := by
    intro h h1
    rw [hlen h]
    simp only [pruneToDelete] at h ⊢
    omega
  have hstep : ∀ (s : List VFile) (e : VFile), 1 ≤ k →
      ((pruneSurvivors (s ++ [e]) k).length : Int) = min ((s.length : Int) + 1) (k - 1) := by
    intro s e h1
    by_cases h : 0 < pruneToDelete (s ++ [e]) k
    · rw [pruneSurvivors, if_pos h, List.length_drop, length_sortByMtime]
      simp only [pruneToDelete, List.length_append, List.length_cons, List.length_nil] at h ⊢
      omega
    · rw [pruneSurvivors, if_neg h, length_sortByMtime]
      simp only [pruneToDelete, List.length_append, List.length_cons, List.length_nil] at h ⊢
      omega
  have hfold : 1 ≤ k → ∀ (news s0 : List VFile), news ≠ [] →
      ((news.foldl (fun s e => pruneSurvivors (s ++ [e]) k) s0).length : Int) =
        min ((s0.length : Int) + news.length) (k - 1) := by
    intro h1 news
    induction news with
    | nil => intro s0 hn; exact absurd rfl hn
    | cons e rest ih =>
      intro s0 _
      rw [List.foldl_cons]
      by_cases hr : rest = []
      · subst hr
        simp only [List.foldl_nil, List.length_cons, List.length_nil]
        rw [hstep s0 e h1]
        push_cast
        omega
      · rw [ih (pruneSurvivors (s0 ++ [e]) k) hr, hstep s0 e h1]
        simp only [List.length_cons]
        push_cast
        omega
  have hstab : 1 ≤ k → ∀ (s0 news : List VFile), 1 ≤ news.length →
      k - 1 ≤ (news.length : Int) →
      ((news.foldl (fun s e => pruneSurvivors (s ++ [e]) k) s0).length : Int) = k - 1 := by
    intro h1 s0 news hn hkn
    have hne : news ≠ [] := by
      cases news
      · simp at hn
      · simp
    rw [hfold h1 news s0 hne]
    have h0 : (0 : Int) ≤ s0.length := Int.natCast_nonneg _
    omega
  exact ⟨⟨hpart, hperm⟩, holdest, hlen, hlen2, hstab⟩

/-- C1 witness: with retention count 1, starting from an empty backup folder,
a single run (one fresh backup, then prune) leaves `1 - 1 = 0` entries. -/
theorem C1_witness :
    (0 : Int) ≤ 1 ∧ (1 : Int) ≤ 1 ∧ 1 ≤ ([bk0] : List VFile).length ∧
      (1 : Int) - 1 ≤ (([bk0] : List VFile).length : Int) ∧
      ((([bk0] : List VFile).foldl (fun s e => pruneSurvivors (s ++ [e]) 1)
          ([] : List VFile)).length : Int) = 1 - 1 :=
  ⟨by decide, by decide, by decide, by decide,
    (C1_amended_prune_and_retention [] 1 (by decide)).2.2.2.2 (by decide) [] [bk0]
      (by decide) (by decide)⟩

theorem backupExistingFile_false_files (v : Vault) (file : VFile) (bfp : JStr) (now : LocalTime) :
    (backupExistingFile v file bfp now false).1.files = v.files := by
  by_cases hb : bfp ∈ v.folders <;> simp [backupExistingFile, hb]

theorem backupExistingFile_false_events (v : Vault) (file : VFile) (bfp : JStr) (now : LocalTime) :
    (backupExistingFile v file bfp now false).2 =
      [Event.renameFailed file.path
        (bfp ++ str "/" ++ backupFileName file.basename file.extension now)] := by
  by_cases hb : bfp ∈ v.folders <;> simp [backupExistingFile, hb]

theorem pruneDeleted_mem_entries (entries : List VFile) (k : Int) :
    ∀ d ∈ pruneDeleted entries k, d ∈ entries := by
  intro d hd
  by_cases h : 0 < pruneToDelete entries k
  · rw [pruneDeleted, if_pos h] at hd
    exact (perm_sortByMtime entries).mem_iff.mp (List.mem_of_mem_take hd)
  · rw [pruneDeleted, if_neg h] at hd
    simp at hd

theorem deleteOldBackupsV_files (v : Vault) (p : JStr) (k : Int) :
    ∀ f ∈ v.files, f.parent ≠ p → f ∈ (deleteOldBackupsV v p k).1.files := by
  intro f hf hp
  by_cases hb : p ∈ v.folders
  · simp only [deleteOldBackupsV, if_pos hb]
    refine List.mem_filter.mpr ⟨hf, ?_⟩
    simp only [decide_eq_true_eq]
    intro hdel
    have hc : f ∈ v.files.filter (fun g => g.parent = p) :=
      pruneDeleted_mem_entries _ _ _ hdel
    have h2 := (List.mem_filter.mp hc).2
    rw [decide_eq_true_eq] at h2
    exact hp h2
  · simp only [deleteOldBackupsV, if_neg hb]
    exact hf

theorem deleteOldBackupsV_events_trashed (v : Vault) (p : JStr) (k : Int) :
    ∀ ev ∈ (deleteOldBackupsV v p k).2, ∃ q, ev = Event.trashed q := by
  intro ev hev
  by_cases hb : p ∈ v.folders
  · simp only [deleteOldBackupsV, if_pos hb] at hev
    obtain ⟨f, _, rfl⟩ := List.mem_map.mp hev
    exact ⟨f.path, rfl⟩
  · simp [deleteOldBackupsV, hb] at hev

theorem getFile_isSome_of_mem (v : Vault) (f : VFile) (p : JStr)
    (hf : f ∈ v.files) (hp : f.path = p) : (getFile v p).isSome = true := by
  rw [getFile, List.find?_isSome]
  exact ⟨f, hf, by simp [hp]⟩

theorem writeStep_files_mono (v : Vault) (cfg : Config) (xbel : Option Element) :
    ∀ f ∈ v.files, f ∈ (writeStep v cfg xbel).1.files := by
  intro f hf
  cases xbel with
  | none => exact hf
  | some el =>
    cases hr : writeFolderStructure el 0 with
    | error e =>
      simp only [writeStep, hr]
      exact hf
    | ok md =>
      by_cases hex : (getFile v (mdPath cfg)).isSome = true
      · simp only [writeStep, hr, hex, if_pos]
        exact hf
      · simp only [writeStep, hr, hex, if_neg, Bool.not_eq_true]
        simp only [List.mem_append]
        exact Or.inl hf

theorem writeStep_no_created_of_exists (v : Vault) (cfg : Config) (xbel : Option Element)
    (hsome : (getFile v (mdPath cfg)).isSome = true) :
    Event.created (mdPath cfg) ∉ (writeStep v cfg xbel).2 ∧
    (∀ el, xbel = some el → (∃ md, writeFolderStructure el 0 = Except.ok md) →
      Event.createAttempt (mdPath cfg) ∈ (writeStep v cfg xbel).2 ∧
      Event.createFailed (mdPath cfg) ∈ (writeStep v cfg xbel).2) := by
  cases xbel with
  | none =>
    constructor
    · simp [writeStep]
    · intro el hel
      exact absurd hel (by simp)
  | some el =>
    cases hr : writeFolderStructure el 0 with
    | error e =>
      constructor
      · simp [writeStep, hr]
      · intro el2 hel hok
        obtain ⟨md, hmd⟩ := hok
        cases hel
        rw [hr] at hmd
        exact absurd hmd (by simp)
    | ok md =>
      constructor
      · simp [writeStep, hr, hsome]
      · intro el2 hel hok
        simp [writeStep, hr, hsome]

theorem processXBELFileData_decomp (v : Vault) (cfg : Config) (now : LocalTime) (ro : Bool)
    (xbel : Option Element) (v1 : Vault)
    (hv1 : v1 = if cfg.mdFolderPath ∈ v.folders then v
      else { v with folders := cfg.mdFolderPath :: v.folders }) :
    processXBELFileData v cfg now ro xbel =
      ((writeStep (deleteOldBackupsV (backupStep v1 cfg now ro).1
          cfg.backupFolderPath cfg.keepCount).1 cfg xbel).1,
        (backupStep v1 cfg now ro).2 ++
          (deleteOldBackupsV (backupStep v1 cfg now ro).1
            cfg.backupFolderPath cfg.keepCount).2 ++
          (writeStep (deleteOldBackupsV (backupStep v1 cfg now ro).1
            cfg.backupFolderPath cfg.keepCount).1 cfg xbel).2) := by
  subst hv1
  rfl

/-- C4 amended: when an output file exists and the backup rename fails, the
run does *not* abort — the unawaited rejected promise is invisible to the
caller, so pruning and the write step still execute; but the new-output
creation fails because the output path is still occupied, so the prior
output file survives unchanged (provided it does not live inside the backup
folder, where pruning could trash it) and no new output is created. -/
theorem C4_amended_failed_backup_still_writes :
    ∀ (v : Vault) (cfg : Config) (now : LocalTime) (xbel : Option Element) (f : VFile),
    getFile v (mdPath cfg) = some f →
    f.parent ≠ cfg.backupFolderPath →
    (f ∈ (processXBELFileData v cfg now false xbel).1.files ∧
      Event.created (mdPath cfg) ∉ (processXBELFileData v cfg now false xbel).2) ∧
    (∀ el, xbel = some el → (∃ md, writeFolderStructure el 0 = Except.ok md) →
      Event.createAttempt (mdPath cfg) ∈ (processXBELFileData v cfg now false xbel).2 ∧
      Event.createFailed (mdPath cfg) ∈ (processXBELFileData v cfg now false xbel).2) := by
  intro v cfg now xbel f hgf hpar
  set w : Vault := (if cfg.mdFolderPath ∈ v.folders then v
    else { v with folders := cfg.mdFolderPath :: v.folders }) with hw
  have hwfiles : w.files = v.files := by
    rw [hw]
    split <;> rfl
  have hgetw : getFile w (mdPath cfg) = some f := by
    rw [getFile, hwfiles]
    exact hgf
  have hbs : backupStep w cfg now false = backupExistingFile w f cfg.backupFolderPath now false := by
    simp only [backupStep, hgetw]
  have hp1files : (backupStep w cfg now false).1.files = v.files := by
    rw [hbs, backupExistingFile_false_files, hwfiles]
  have hp1ev : (backupStep w cfg now false).2 =
      [Event.renameFailed f.path
        (cfg.backupFolderPath ++ str "/" ++ backupFileName f.basename f.extension now)] := by
    rw [hbs, backupExistingFile_false_events]
  have hfmem : f ∈ v.files := List.mem_of_find?_eq_some hgf
  have hfpath : f.path = mdPath cfg := by
    have h2 := List.find?_some hgf
    simpa using h2
  have hf2 : f ∈ (deleteOldBackupsV (backupStep w cfg now false).1
      cfg.backupFolderPath cfg.keepCount).1.files := by
    apply deleteOldBackupsV_files _ _ _ f _ hpar
    rw [hp1files]
    exact hfmem
  have hsome : (getFile (deleteOldBackupsV (backupStep w cfg now false).1
      cfg.backupFolderPath cfg.keepCount).1 (mdPath cfg)).isSome = true :=
    getFile_isSome_of_mem _ f _ hf2 hfpath
  rw [processXBELFileData_decomp v cfg now false xbel w hw]
  refine ⟨⟨?_, ?_⟩, ?_⟩
  · exact writeStep_files_mono _ cfg xbel f hf2
  · intro hin
    rcases List.mem_append.mp hin with h12 | h3
    · rcases List.mem_append.mp h12 with h1 | h2
      · rw [hp1ev] at h1
        simp at h1
      · obtain ⟨q, hq⟩ := deleteOldBackupsV_events_trashed _ _ _ _ h2
        exact absurd hq (by simp)
    · exact (writeStep_no_created_of_exists _ cfg xbel hsome).1 h3
  · intro el hel hok
    have h := (writeStep_no_created_of_exists _ cfg xbel hsome).2 el hel hok
    constructor
    · exact List.mem_append.mpr (Or.inr h.1)
    · exact List.mem_append.mpr (Or.inr h.2)

/-- C4 counterexample: with the output file present and the backup rename
failing, the run does not abort — the write step is reached (`createAttempt`
occurs after `renameFailed`), refuting "the write step is never reached after
a failed backup"; the creation then fails and the vault is left unchanged. -/
theorem C4_counterexample :
    getFile vaultX (mdPath cfgX) = some mdOld ∧
      (processXBELFileData vaultX cfgX nowFixed false (some untitledSub)).2 =
        [Event.renameFailed (str "md/bookmarks.md") (str "bk/bookmarks-20240102030405.md"),
          Event.createAttempt (str "md/bookmarks.md"),
          Event.createFailed (str "md/bookmarks.md"),
          Event.errorLogged] ∧
      (processXBELFileData vaultX cfgX nowFixed false (some untitledSub)).1 = vaultX := by
  exact ⟨rfl, by decide, by decide⟩

/-- C4 witness: the amended theorem at the concrete failing-rename run. -/
theorem C4_witness :
    getFile vaultX (mdPath cfgX) = some mdOld ∧
      mdOld.parent ≠ cfgX.backupFolderPath ∧
      (mdOld ∈ (processXBELFileData vaultX cfgX nowFixed false (some untitledSub)).1.files ∧
        Event.created (mdPath cfgX) ∉
          (processXBELFileData vaultX cfgX nowFixed false (some untitledSub)).2) :=
  ⟨rfl, by decide,
    (C4_amended_failed_backup_still_writes vaultX cfgX nowFixed (some untitledSub) mdOld
      rfl (by decide)).1⟩
